import Mathlib

/-!
Verification of the alerting and polling core of a crypto price monitor.

The development shallowly embeds the alert-state engine
(`alert_manager.py`: `AlertManager.check_and_trigger_alerts`,
`reset_alert_state`, `reset_all_alerts_for_coin`) and the fetch-loop
start/stop logic (`gui.py`: `start_data_fetching_loop`,
`stop_data_fetching_loop`, `_fetch_data_loop`).

Python strings are modelled as `List Char`; the `triggered_alerts`
dictionary is modelled as an association list with Python `dict`
semantics (`get` / item assignment / `pop`); prices and thresholds are
modelled as `Int` (the claims only exercise integral prices; the
comparisons `>`/`<` and the decimal rendering used in dictionary keys
are faithfully mirrored).
-/

namespace CryptoChecker

/-! ### Decimal rendering of numbers, mirroring Python `str(n)` inside f-strings -/

/-- Fuel-indexed decimal rendering of a natural number (least significant digit
last), structurally recursive so concrete keys evaluate by `decide`. -/
def natCharsAux : Nat → Nat → List Char
  | 0, _ => []
  | fuel + 1, n =>
    if n < 10 then [Nat.digitChar n]
    else natCharsAux fuel (n / 10) ++ [Nat.digitChar (n % 10)]

/-- Decimal digit string of a natural number, as in Python `str(n)`. -/
def natChars (n : Nat) : List Char := natCharsAux (n + 1) n

/-- Decimal string of an integer, as in Python `str(i)` (a leading `-` for
negative values). -/
def intChars (i : Int) : List Char :=
  if i < 0 then '-' :: natChars i.natAbs else natChars i.natAbs

/-! ### Python `dict` operations on the `triggered_alerts` mapping -/

/-- The `triggered_alerts` dictionary: string keys to booleans. -/
abbrev AlertDict := List (List Char × Bool)

/-- Python `d.get(k)`: the value stored at `k`, or `none` when absent. -/
def dget : AlertDict → List Char → Option Bool
  | [], _ => none
  | (k', v) :: t, k => if k' = k then some v else dget t k

/-- Python `d[k] = v`: update the entry at `k` in place, or append a new one. -/
def dset (d : AlertDict) (k : List Char) (v : Bool) : AlertDict :=
  if dget d k = none then d ++ [(k, v)]
  else d.map (fun e => if e.1 = k then (k, v) else e)

/-- Python `d.pop(k, None)` / `del d[k]`: remove the entry at `k` (a no-op when
absent). -/
def dpop : AlertDict → List Char → AlertDict
  | [], _ => []
  | (k', v) :: t, k => if k' = k then dpop t k else (k', v) :: dpop t k

/-- Python `p.startswith(q)` reading: `startsWith pre l` holds when `pre` is an
initial segment of `l`. -/
def startsWith : List Char → List Char → Bool
  | [], _ => true
  | _ :: _, [] => false
  | a :: ps, b :: ls => a = b && startsWith ps ls

/-! ### Alert keys (`f-string` construction from `alert_manager.py`) -/

/-- `alert_key_base = f"{coin_symbol}_{coin_id}"`. -/
def keyBase (sym : List Char) (id : Nat) : List Char := sym ++ '_' :: natChars id

/-- `f"{alert_key_base}_{limit_type}_{limit_value}"`. -/
def alertKeyId (sym : List Char) (id : Nat) (tag : List Char) (v : Int) : List Char :=
  keyBase sym id ++ '_' :: (tag ++ '_' :: intChars v)

/-- The two bound kinds of an alert. -/
inductive BoundKind where
  | above
  | below
deriving DecidableEq, Repr

/-- The `limit_type` string of a bound kind. -/
def boundTag : BoundKind → List Char
  | .above => ['a', 'b', 'o', 'v', 'e']
  | .below => ['b', 'e', 'l', 'o', 'w']

/-- `f"{alert_key_base}_above_{alert_above_price}"`. -/
def aboveKey (sym : List Char) (id : Nat) (a : Int) : List Char :=
  alertKeyId sym id (boundTag .above) a

/-- `f"{alert_key_base}_below_{alert_below_price}"`. -/
def belowKey (sym : List Char) (id : Nat) (b : Int) : List Char :=
  alertKeyId sym id (boundTag .below) b

/-- The key of a bound kind, packaging `aboveKey`/`belowKey`. -/
def boundKey (sym : List Char) (id : Nat) (kind : BoundKind) (v : Int) : List Char :=
  alertKeyId sym id (boundTag kind) v

/-- `prefix_to_remove = f"{coin_symbol}_{coin_id}_"` from
`reset_all_alerts_for_coin`. -/
def keyStart (sym : List Char) (id : Nat) : List Char := keyBase sym id ++ ['_']

/-! ### The alert engine -/

/-- The per-coin configuration fields read by `check_and_trigger_alerts`. -/
structure CoinConfig where
  alert_above : Option Int
  alert_below : Option Int
  alert_active : Bool
deriving DecidableEq, Repr

/-- An emitted alert event: the visual-alert callback invocation
`gui_callback_visual_alert(coin_symbol, message, kind)` together with the
current price reported in the message. -/
structure AlertEvent where
  symbol : List Char
  kind : BoundKind
  price : Int
deriving DecidableEq, Repr

/-- The upper-limit block of `check_and_trigger_alerts` (lines 94–109):
fires when `current_price > alert_above` and the key is not yet marked
triggered; pops the key when the bound is set and the price is back at or
below it. -/
def processAbove (sym : List Char) (id : Nat) (p : Int) (cfg : CoinConfig)
    (s : AlertDict) : AlertDict × List AlertEvent :=
  match cfg.alert_above with
  | some a =>
    if a < p then
      if dget s (aboveKey sym id a) = some true then (s, [])
      else (dset s (aboveKey sym id a) true, [⟨sym, .above, p⟩])
    else (dpop s (aboveKey sym id a), [])
  | none => (s, [])

/-- The lower-limit block of `check_and_trigger_alerts` (lines 111–126),
symmetric with `current_price < alert_below`. -/
def processBelow (sym : List Char) (id : Nat) (p : Int) (cfg : CoinConfig)
    (s : AlertDict) : AlertDict × List AlertEvent :=
  match cfg.alert_below with
  | some b =>
    if p < b then
      if dget s (belowKey sym id b) = some true then (s, [])
      else (dset s (belowKey sym id b) true, [⟨sym, .below, p⟩])
    else (dpop s (belowKey sym id b), [])
  | none => (s, [])

/-- `AlertManager.check_and_trigger_alerts(coin_symbol, coin_id, current_price,
coin_config)`: returns the updated `triggered_alerts` dictionary and the list
of emitted alert events.  The guard mirrors line 89: nothing happens when the
alert is inactive or the price is `None`. -/
def checkAndTriggerAlerts (sym : List Char) (id : Nat) (price : Option Int)
    (cfg : CoinConfig) (s : AlertDict) : AlertDict × List AlertEvent :=
  if cfg.alert_active = true then
    match price with
    | none => (s, [])
    | some p =>
      let r1 := processAbove sym id p cfg s
      let r2 := processBelow sym id p cfg r1.1
      (r2.1, r1.2 ++ r2.2)
  else (s, [])

/-- `AlertManager.reset_alert_state(coin_symbol, coin_id, limit_type,
limit_value)`: deletes the entry keyed by the given limit type and value. -/
def resetAlertState (sym : List Char) (id : Nat) (limitType : List Char)
    (limitValue : Int) (s : AlertDict) : AlertDict :=
  dpop s (alertKeyId sym id limitType limitValue)

/-- `AlertManager.reset_all_alerts_for_coin(coin_symbol, coin_id)`: deletes
every entry whose key starts with `f"{coin_symbol}_{coin_id}_"`. -/
def resetAllAlertsForCoin (sym : List Char) (id : Nat) (s : AlertDict) : AlertDict :=
  s.filter (fun e => ! startsWith (keyStart sym id) e.1)

/-- Feeding a price sequence through `check_and_trigger_alerts` for one coin:
returns the final dictionary and the concatenated events. -/
def runPrices (sym : List Char) (id : Nat) (cfg : CoinConfig) :
    List Int → AlertDict → AlertDict × List AlertEvent
  | [], s => (s, [])
  | p :: ps, s =>
    let r := checkAndTriggerAlerts sym id (some p) cfg s
    let rest := runPrices sym id cfg ps r.1
    (rest.1, r.2 ++ rest.2)

/-- Bool test for above-kind events. -/
def isAboveEvent (e : AlertEvent) : Bool :=
  match e.kind with
  | .above => true
  | .below => false

/-- Bool test for below-kind events. -/
def isBelowEvent (e : AlertEvent) : Bool :=
  match e.kind with
  | .above => false
  | .below => true

/-- Every value stored in the dictionary is `True` (the only value the source
ever stores, line 105 / line 122). -/
def AllTrue (d : AlertDict) : Prop := ∀ e ∈ d, e.2 = true

/-- States of `triggered_alerts` reachable from the empty initial dictionary
(line 17) by the three mutating operations of `AlertManager`. -/
inductive Reach : AlertDict → Prop where
  | init : Reach []
  | check (sym : List Char) (id : Nat) (price : Option Int) (cfg : CoinConfig)
      {s : AlertDict} : Reach s → Reach (checkAndTriggerAlerts sym id price cfg s).1
  | reset (sym : List Char) (id : Nat) (limitType : List Char) (limitValue : Int)
      {s : AlertDict} : Reach s → Reach (resetAlertState sym id limitType limitValue s)
  | resetAll (sym : List Char) (id : Nat) {s : AlertDict} :
      Reach s → Reach (resetAllAlertsForCoin sym id s)

/-! ### The polling scheduler (`gui.py`)

`start_data_fetching_loop` / `stop_data_fetching_loop` manipulate a thread
handle `data_fetch_thread` and a shared `stop_fetching_event`.  The model
tracks the set of live loop threads by id; `stopLoop`'s `joinOk` argument is
the outcome of `data_fetch_thread.join(timeout=5)`: `true` when the loop
observed the stop event and exited within the timeout, `false` when the join
timed out and the still-running thread was abandoned (the source then prints
"did not stop gracefully" and clears the handle anyway, line 599). -/

/-- Scheduler state: ids of live loop threads, the next fresh thread id, the
`data_fetch_thread` handle, and the shared `stop_fetching_event` flag. -/
structure SchedState where
  alive : List Nat
  nextId : Nat
  fetchThread : Option Nat
  stopEvent : Bool
deriving DecidableEq, Repr

/-- `self.data_fetch_thread is not None and self.data_fetch_thread.is_alive()`. -/
def threadAliveB (s : SchedState) : Bool :=
  match s.fetchThread with
  | some t => s.alive.contains t
  | none => false

/-- The initial state: no thread, event clear. -/
def initSched : SchedState := ⟨[], 0, none, false⟩

/-- `App.start_data_fetching_loop` (lines 575–588): bail out without an API
client; no-op while the tracked thread is alive; otherwise clear the stop
event and spawn a fresh loop thread. -/
def startLoop (apiOk : Bool) (s : SchedState) : SchedState :=
  if apiOk = false then s
  else if threadAliveB s = true then s
  else
    { alive := s.nextId :: s.alive
      nextId := s.nextId + 1
      fetchThread := some s.nextId
      stopEvent := false }

/-- `App.stop_data_fetching_loop` (lines 590–599): when the tracked thread is
alive, set the stop event and join with a 5-second timeout — the thread dies
iff the join succeeds (`joinOk`); in every case the handle is set to `None`. -/
def stopLoop (joinOk : Bool) (s : SchedState) : SchedState :=
  match s.fetchThread with
  | some t =>
    if s.alive.contains t = true then
      { alive := if joinOk then s.alive.erase t else s.alive
        nextId := s.nextId
        fetchThread := none
        stopEvent := true }
    else { s with fetchThread := none }
  | none => { s with fetchThread := none }

/-- A loop thread reaching a check of `stop_fetching_event` while the event is
set exits (`_fetch_data_loop`, e.g. lines 443, 450, 474). -/
def observeStop (tid : Nat) (s : SchedState) : SchedState :=
  if s.stopEvent && s.alive.contains tid then { s with alive := s.alive.erase tid }
  else s

/-- Number of live loop threads. -/
def aliveCount (s : SchedState) : Nat := s.alive.length

/-- Scheduler states reachable when every `stop` joins successfully within the
timeout (the loop always observes the stop event in time). -/
inductive GoodReach : SchedState → Prop where
  | init : GoodReach initSched
  | start (apiOk : Bool) {s : SchedState} : GoodReach s → GoodReach (startLoop apiOk s)
  | stop {s : SchedState} : GoodReach s → GoodReach (stopLoop true s)
  | observe (tid : Nat) {s : SchedState} : GoodReach s → GoodReach (observeStop tid s)

/-! ### Fetch-outcome classification in `_fetch_data_loop` (lines 476–531) -/

/-- Python `needle in hay` on strings. -/
def hasSub : List Char → List Char → Bool
  | hay, needle =>
    match hay with
    | [] => startsWith needle []
    | c :: t => startsWith needle (c :: t) || hasSub t needle

/-- The per-iteration API response, as discriminated by the source:
`api_response.get("data")` truthy, `api_response.get("error")` truthy (with
the CoinMarketCap status `error_message`), or neither. -/
inductive ApiResp where
  | withData
  | apiError (cmcErrorMessage : List Char)
  | noData
deriving DecidableEq, Repr

/-- The authentication-failure test of lines 522–525: the CMC error message
contains one of the four fatal substrings. -/
def isAuthMsg (msg : List Char) : Bool :=
  hasSub msg ['A', 'P', 'I', ' ', 'k', 'e', 'y', ' ', 'm', 'i', 's', 's', 'i', 'n', 'g'] ||
  hasSub msg ['I', 'n', 'v', 'a', 'l', 'i', 'd', ' ', 'A', 'P', 'I', ' ', 'k', 'e', 'y'] ||
  hasSub msg ['i', 's', ' ', 'n', 'o', 't', ' ', 'a', ' ', 'v', 'a', 'l', 'i', 'd', ' ', 'U', 'U', 'I', 'D'] ||
  hasSub msg ['n', 'o', 't', ' ', 'a', ' ', 'v', 'a', 'l', 'i', 'd', ' ', 'p', 'l', 'a', 'n']

/-- What one loop iteration does with the fetch outcome. -/
inductive TickResult where
  | processed
  | continuedError
  | continuedUnknown
  | stoppedAuth (signaled : Bool)
deriving DecidableEq, Repr

/-- Classification of one iteration: data is processed; an API error either
matches the auth test (then the loop `break`s, scheduling
`_prompt_for_api_key_again` when the status label still exists) or is logged
and the loop continues; anything else is logged as unknown and the loop
continues. -/
def tickOutcome (r : ApiResp) (labelExists : Bool) : TickResult :=
  match r with
  | .withData => .processed
  | .apiError msg => if isAuthMsg msg = true then .stoppedAuth labelExists else .continuedError
  | .noData => .continuedUnknown

/-- Whether the iteration left the loop (`break`). -/
def stopsLoop : TickResult → Bool
  | .stoppedAuth _ => true
  | _ => false

/-- The fetch loop over a stream of per-iteration responses: runs iteration
after iteration until one breaks. -/
def runLoop (labelExists : Bool) : List ApiResp → List TickResult
  | [] => []
  | r :: rest =>
    let t := tickOutcome r labelExists
    if stopsLoop t = true then [t] else t :: runLoop labelExists rest

/-! ### Dictionary lemmas -/

theorem dget_append_single (d : AlertDict) (k : List Char) (v : Bool)
    (h : dget d k = none) : dget (d ++ [(k, v)]) k = some v := by
  induction d with
  | nil => simp [dget]
  | cons e t ih =>
    obtain ⟨k', v'⟩ := e
    by_cases hk : k' = k
    · simp [dget, hk] at h
    · simp only [dget, hk, if_false, List.cons_append] at h ⊢
      exact ih h

theorem dget_append_single_ne (d : AlertDict) (k : List Char) (v : Bool)
    (k' : List Char) (h : k ≠ k') : dget (d ++ [(k, v)]) k' = dget d k' := by
  induction d with
  | nil => simp [dget, h]
  | cons e t ih =>
    obtain ⟨k0, v0⟩ := e
    by_cases hk : k0 = k'
    · simp [dget, hk]
    · simp only [List.cons_append, dget, hk, if_false]
      exact ih

theorem dget_map_update (d : AlertDict) (k : List Char) (v w : Bool)
    (h : dget d k = some w) :
    dget (d.map (fun e => if e.1 = k then (k, v) else e)) k = some v := by
  induction d with
  | nil => simp [dget] at h
  | cons e t ih =>
    obtain ⟨k', v'⟩ := e
    simp only [List.map_cons]
    by_cases hk : k' = k
    · subst hk
      rw [if_pos rfl]
      simp [dget]
    · rw [if_neg hk]
      simp only [dget, hk, if_false] at h ⊢
      exact ih h

theorem dget_map_update_ne (d : AlertDict) (k : List Char) (v : Bool)
    (k' : List Char) (h : k ≠ k') :
    dget (d.map (fun e => if e.1 = k then (k, v) else e)) k' = dget d k' := by
  induction d with
  | nil => simp [dget]
  | cons e t ih =>
    obtain ⟨k0, v0⟩ := e
    simp only [List.map_cons]
    by_cases hk : k0 = k
    · subst hk
      rw [if_pos rfl]
      simp only [dget, h, if_false]
      exact ih
    · rw [if_neg hk]
      simp only [dget]
      by_cases hk' : k0 = k'
      · simp [hk']
      · simp only [hk', if_false]
        exact ih

theorem dget_dset_self (d : AlertDict) (k : List Char) (v : Bool) :
    dget (dset d k v) k = some v := by
  unfold dset
  by_cases h : dget d k = none
  · simp only [h, if_true]
    exact dget_append_single d k v h
  · simp only [h, if_false]
    match hd : dget d k with
    | some w => exact dget_map_update d k v w hd
    | none => exact absurd hd h

theorem dget_dset_ne (d : AlertDict) (k : List Char) (v : Bool) (k' : List Char)
    (h : k ≠ k') : dget (dset d k v) k' = dget d k' := by
  unfold dset
  split
  · exact dget_append_single_ne d k v k' h
  · exact dget_map_update_ne d k v k' h

theorem dget_dpop_self (d : AlertDict) (k : List Char) :
    dget (dpop d k) k = none := by
  induction d with
  | nil => rfl
  | cons e t ih =>
    obtain ⟨k', v'⟩ := e
    by_cases hk : k' = k
    · simpa [dpop, hk] using ih
    · simpa [dpop, dget, hk] using ih

theorem dget_dpop_ne (d : AlertDict) (k k' : List Char) (h : k ≠ k') :
    dget (dpop d k) k' = dget d k' := by
  induction d with
  | nil => rfl
  | cons e t ih =>
    obtain ⟨k0, v0⟩ := e
    by_cases hk : k0 = k
    · subst hk
      simp only [dpop, if_pos rfl, dget, h, if_false]
      exact ih
    · simp only [dpop, hk, if_false, dget]
      by_cases hk' : k0 = k'
      · simp [hk']
      · simp only [hk', if_false]
        exact ih

theorem mem_dpop {e : List Char × Bool} {d : AlertDict} {k : List Char}
    (h : e ∈ dpop d k) : e ∈ d := by
  induction d with
  | nil => simp [dpop] at h
  | cons e0 t ih =>
    obtain ⟨k', v'⟩ := e0
    by_cases hk : k' = k
    · simp only [dpop, hk, if_true] at h
      exact List.mem_cons_of_mem _ (ih h)
    · simp only [dpop, hk, if_false, List.mem_cons] at h
      rcases h with h | h
      · exact h ▸ List.mem_cons_self _ _
      · exact List.mem_cons_of_mem _ (ih h)

theorem allTrue_dset_true {d : AlertDict} (h : AllTrue d) (k : List Char) :
    AllTrue (dset d k true) := by
  intro e he
  unfold dset at he
  split at he
  · rcases List.mem_append.mp he with he | he
    · exact h e he
    · simp only [List.mem_singleton] at he
      simp [he]
  · rcases List.mem_map.mp he with ⟨a, ha, rfl⟩
    split
    · rfl
    · exact h a ha

theorem allTrue_dpop {d : AlertDict} (h : AllTrue d) (k : List Char) :
    AllTrue (dpop d k) := fun e he => h e (mem_dpop he)

/-! ### Decimal rendering lemmas -/

theorem natCharsAux_congr : ∀ (f g n : Nat), n < f → n < g →
    natCharsAux f n = natCharsAux g n := by
  intro f
  induction f with
  | zero => intro g n hf; omega
  | succ f ih =>
    intro g n hf hg
    match g with
    | 0 => omega
    | g + 1 =>
      simp only [natCharsAux]
      split
      · rfl
      · have hdiv : n / 10 < n := Nat.div_lt_self (by omega) (by omega)
        rw [ih g (n / 10) (by omega) (by omega)]

theorem natChars_eq (n : Nat) :
    natChars n = if n < 10 then [Nat.digitChar n]
      else natChars (n / 10) ++ [Nat.digitChar (n % 10)] := by
  show natCharsAux (n + 1) n = _
  simp only [natCharsAux]
  split
  · rfl
  · have hdiv : n / 10 < n := Nat.div_lt_self (by omega) (by omega)
    rw [natCharsAux_congr n (n / 10 + 1) (n / 10) (by omega) (by omega)]
    rfl

theorem digitChar_ne_mark : ∀ d, d < 10 → Nat.digitChar d ≠ '_' ∧ Nat.digitChar d ≠ '-' := by
  decide

theorem digitChar_inj_lt : ∀ d, d < 10 → ∀ e, e < 10 →
    Nat.digitChar d = Nat.digitChar e → d = e := by
  decide

theorem natChars_digit (n : Nat) : ∀ c ∈ natChars n, ∃ d, d < 10 ∧ c = Nat.digitChar d := by
  induction n using Nat.strong_induction_on with
  | _ n ih =>
    intro c hc
    rw [natChars_eq] at hc
    split at hc
    · exact ⟨n, by assumption, by simpa using hc⟩
    · rcases List.mem_append.mp hc with hc | hc
      · exact ih (n / 10) (Nat.div_lt_self (by omega) (by omega)) c hc
      · exact ⟨n % 10, Nat.mod_lt _ (by omega), by simpa using hc⟩

theorem natChars_no_us (n : Nat) : '_' ∉ natChars n := by
  intro h
  obtain ⟨d, hd, he⟩ := natChars_digit n _ h
  exact (digitChar_ne_mark d hd).1 he.symm

theorem natChars_no_dash (n : Nat) : '-' ∉ natChars n := by
  intro h
  obtain ⟨d, hd, he⟩ := natChars_digit n _ h
  exact (digitChar_ne_mark d hd).2 he.symm

theorem natChars_ne_nil (n : Nat) : natChars n ≠ [] := by
  rw [natChars_eq]
  split
  · simp
  · simp

theorem natChars_inj : ∀ m n, natChars m = natChars n → m = n := by
  intro m
  induction m using Nat.strong_induction_on with
  | _ m ih =>
    intro n h
    rw [natChars_eq m, natChars_eq n] at h
    split at h <;> split at h
    · exact digitChar_inj_lt m (by assumption) n (by assumption) (by simpa using h)
    · exfalso
      have hl := congrArg List.length h
      simp only [List.length_singleton, List.length_append] at hl
      have : (natChars (n / 10)).length = 0 := by omega
      exact natChars_ne_nil (n / 10) (List.length_eq_zero.mp this)
    · exfalso
      have hl := congrArg List.length h
      simp only [List.length_singleton, List.length_append] at hl
      have : (natChars (m / 10)).length = 0 := by omega
      exact natChars_ne_nil (m / 10) (List.length_eq_zero.mp this)
    · obtain ⟨h1, h2⟩ := List.append_inj' h (by simp)
      have hdiv : m / 10 = n / 10 :=
        ih (m / 10) (Nat.div_lt_self (by omega) (by omega)) (n / 10) h1
      have hmod : m % 10 = n % 10 :=
        digitChar_inj_lt (m % 10) (Nat.mod_lt _ (by omega)) (n % 10)
          (Nat.mod_lt _ (by omega)) (by simpa using h2)
      omega

theorem intChars_no_us (i : Int) : '_' ∉ intChars i := by
  unfold intChars
  split
  · intro h
    rcases List.mem_cons.mp h with h | h
    · exact absurd h (by decide)
    · exact natChars_no_us _ h
  · exact natChars_no_us _

theorem intChars_inj {i j : Int} (h : intChars i = intChars j) : i = j := by
  unfold intChars at h
  split at h <;> split at h
  · simp only [List.cons.injEq, true_and] at h
    have := natChars_inj _ _ h
    omega
  · exact absurd (h ▸ List.mem_cons_self '-' _) (natChars_no_dash _)
  · exact absurd (h.symm ▸ List.mem_cons_self '-' _) (natChars_no_dash _)
  · have := natChars_inj _ _ h
    omega

/-! ### Alert-key structure lemmas -/

theorem append_us_inj : ∀ (xs xs' ys ys' : List Char), '_' ∉ xs → '_' ∉ xs' →
    xs ++ '_' :: ys = xs' ++ '_' :: ys' → xs = xs' ∧ ys = ys' := by
  intro xs
  induction xs with
  | nil =>
    intro xs' ys ys' _ hx' h
    match xs' with
    | [] => simpa using h
    | c :: t =>
      exfalso
      simp only [List.nil_append, List.cons_append, List.cons.injEq] at h
      exact hx' (h.1 ▸ List.mem_cons_self _ _)
  | cons c t ih =>
    intro xs' ys ys' hx hx' h
    match xs' with
    | [] =>
      exfalso
      simp only [List.cons_append, List.nil_append, List.cons.injEq] at h
      exact hx (h.1 ▸ List.mem_cons_self _ _)
    | c' :: t' =>
      simp only [List.cons_append, List.cons.injEq] at h
      obtain ⟨h1, h2⟩ := h
      have ht := ih t' ys ys' (fun hm => hx (List.mem_cons_of_mem _ hm))
        (fun hm => hx' (List.mem_cons_of_mem _ hm)) h2
      exact ⟨by rw [h1, ht.1], ht.2⟩

theorem alertKeyId_reverse (sym : List Char) (id : Nat) (tag : List Char) (v : Int) :
    (alertKeyId sym id tag v).reverse =
      (intChars v).reverse ++ '_' ::
        (tag.reverse ++ '_' :: ((natChars id).reverse ++ '_' :: sym.reverse)) := by
  simp [alertKeyId, keyBase, List.reverse_append, List.append_assoc]

theorem alertKeyId_inj {sym sym' tag tag' : List Char} {id id' : Nat} {v v' : Int}
    (h1 : '_' ∉ tag) (h2 : '_' ∉ tag')
    (h : alertKeyId sym id tag v = alertKeyId sym' id' tag' v') :
    sym = sym' ∧ id = id' ∧ tag = tag' ∧ v = v' := by
  have hr := congrArg List.reverse h
  rw [alertKeyId_reverse, alertKeyId_reverse] at hr
  obtain ⟨e1, hr⟩ := append_us_inj _ _ _ _
    (fun hm => intChars_no_us v (List.mem_reverse.mp hm))
    (fun hm => intChars_no_us v' (List.mem_reverse.mp hm)) hr
  obtain ⟨e2, hr⟩ := append_us_inj _ _ _ _
    (fun hm => h1 (List.mem_reverse.mp hm))
    (fun hm => h2 (List.mem_reverse.mp hm)) hr
  obtain ⟨e3, e4⟩ := append_us_inj _ _ _ _
    (fun hm => natChars_no_us id (List.mem_reverse.mp hm))
    (fun hm => natChars_no_us id' (List.mem_reverse.mp hm)) hr
  refine ⟨List.reverse_injective e4, ?_, List.reverse_injective e2,
    intChars_inj (List.reverse_injective e1)⟩
  exact natChars_inj _ _ (List.reverse_injective e3)

theorem boundTag_no_us (kind : BoundKind) : '_' ∉ boundTag kind := by
  cases kind <;> decide

theorem boundKey_inj {sym sym' : List Char} {id id' : Nat} {kind kind' : BoundKind}
    {v v' : Int} (h : boundKey sym id kind v = boundKey sym' id' kind' v') :
    sym = sym' ∧ id = id' ∧ kind = kind' ∧ v = v' := by
  obtain ⟨hs, hi, ht, hv⟩ := alertKeyId_inj (boundTag_no_us kind) (boundTag_no_us kind') h
  refine ⟨hs, hi, ?_, hv⟩
  cases kind <;> cases kind' <;> first | rfl | exact absurd ht (by decide)

theorem aboveKey_ne_belowKey (sym sym' : List Char) (id id' : Nat) (a b : Int) :
    aboveKey sym id a ≠ belowKey sym' id' b := by
  intro h
  exact absurd (boundKey_inj h).2.2.1 (by decide)

/-! ### `startsWith` lemmas -/

theorem startsWith_append_self : ∀ (x y : List Char), startsWith x (x ++ y) = true := by
  intro x
  induction x with
  | nil => intro y; rfl
  | cons c t ih => intro y; simp [startsWith, ih]

theorem alertKeyId_eq_keyStart (sym : List Char) (id : Nat) (tag : List Char) (v : Int) :
    alertKeyId sym id tag v = keyStart sym id ++ (tag ++ '_' :: intChars v) := by
  simp [alertKeyId, keyStart, keyBase, List.append_assoc]

theorem startsWith_keyStart (sym : List Char) (id : Nat) (tag : List Char) (v : Int) :
    startsWith (keyStart sym id) (alertKeyId sym id tag v) = true := by
  rw [alertKeyId_eq_keyStart]
  exact startsWith_append_self _ _

theorem dget_resetAll {sym : List Char} {id : Nat} {k : List Char}
    (s : AlertDict) (h : startsWith (keyStart sym id) k = true) :
    dget (resetAllAlertsForCoin sym id s) k = none := by
  induction s with
  | nil => rfl
  | cons e t ih =>
    obtain ⟨k', v'⟩ := e
    by_cases hp : startsWith (keyStart sym id) k' = true
    · simpa [resetAllAlertsForCoin, List.filter, hp] using ih
    · have hk : k' ≠ k := fun he => hp (he ▸ h)
      simpa [resetAllAlertsForCoin, List.filter, hp, dget, hk] using ih

/-! ### Structural lemmas about one `check_and_trigger_alerts` call -/

theorem processAbove_fst_dget_ne {sym : List Char} {id : Nat} {p : Int}
    {cfg : CoinConfig} {s : AlertDict} {k : List Char}
    (hA : ∀ a, cfg.alert_above = some a → k ≠ aboveKey sym id a) :
    dget (processAbove sym id p cfg s).1 k = dget s k := by
  cases ha : cfg.alert_above with
  | none => simp [processAbove, ha]
  | some a =>
    have hk := hA a ha
    simp only [processAbove, ha]
    split
    · split
      · rfl
      · exact dget_dset_ne s (aboveKey sym id a) true k (Ne.symm hk)
    · exact dget_dpop_ne s (aboveKey sym id a) k (Ne.symm hk)

theorem processBelow_fst_dget_ne {sym : List Char} {id : Nat} {p : Int}
    {cfg : CoinConfig} {s : AlertDict} {k : List Char}
    (hB : ∀ b, cfg.alert_below = some b → k ≠ belowKey sym id b) :
    dget (processBelow sym id p cfg s).1 k = dget s k := by
  cases hb : cfg.alert_below with
  | none => simp [processBelow, hb]
  | some b =>
    have hk := hB b hb
    simp only [processBelow, hb]
    split
    · split
      · rfl
      · exact dget_dset_ne s (belowKey sym id b) true k (Ne.symm hk)
    · exact dget_dpop_ne s (belowKey sym id b) k (Ne.symm hk)

theorem processAbove_snd_mem {sym : List Char} {id : Nat} {p : Int}
    {cfg : CoinConfig} {s : AlertDict} :
    ∀ e ∈ (processAbove sym id p cfg s).2, e = (⟨sym, .above, p⟩ : AlertEvent) := by
  cases ha : cfg.alert_above with
  | none => simp [processAbove, ha]
  | some a =>
    simp only [processAbove, ha]
    split
    · split
      · simp
      · simp
    · simp

theorem processBelow_snd_mem {sym : List Char} {id : Nat} {p : Int}
    {cfg : CoinConfig} {s : AlertDict} :
    ∀ e ∈ (processBelow sym id p cfg s).2, e = (⟨sym, .below, p⟩ : AlertEvent) := by
  cases hb : cfg.alert_below with
  | none => simp [processBelow, hb]
  | some b =>
    simp only [processBelow, hb]
    split
    · split
      · simp
      · simp
    · simp

theorem check_fst_dget_ne {sym : List Char} {id : Nat} {price : Option Int}
    {cfg : CoinConfig} {s : AlertDict} {k : List Char}
    (hA : ∀ a, cfg.alert_above = some a → k ≠ aboveKey sym id a)
    (hB : ∀ b, cfg.alert_below = some b → k ≠ belowKey sym id b) :
    dget (checkAndTriggerAlerts sym id price cfg s).1 k = dget s k := by
  unfold checkAndTriggerAlerts
  split
  · match price with
    | none => rfl
    | some p =>
      simp only
      rw [processBelow_fst_dget_ne hB, processAbove_fst_dget_ne hA]
  · rfl

theorem check_inactive {sym : List Char} {id : Nat} {price : Option Int}
    {cfg : CoinConfig} {s : AlertDict} (h : cfg.alert_active = false) :
    checkAndTriggerAlerts sym id price cfg s = (s, []) := by
  simp [checkAndTriggerAlerts, h]

theorem check_active {sym : List Char} {id : Nat} {p : Int} {cfg : CoinConfig}
    {s : AlertDict} (h : cfg.alert_active = true) :
    checkAndTriggerAlerts sym id (some p) cfg s =
      ((processBelow sym id p cfg (processAbove sym id p cfg s).1).1,
        (processAbove sym id p cfg s).2 ++
          (processBelow sym id p cfg (processAbove sym id p cfg s).1).2) := by
  simp [checkAndTriggerAlerts, h]

theorem check_none_price {sym : List Char} {id : Nat} {cfg : CoinConfig}
    {s : AlertDict} : checkAndTriggerAlerts sym id none cfg s = (s, []) := by
  unfold checkAndTriggerAlerts
  split <;> rfl

theorem processAbove_triggered {sym : List Char} {id : Nat} {p a : Int}
    {cfg : CoinConfig} {s : AlertDict} (ha : cfg.alert_above = some a) (hap : a < p)
    (ht : dget s (aboveKey sym id a) = some true) :
    processAbove sym id p cfg s = (s, []) := by
  simp [processAbove, ha, hap, ht]

theorem processAbove_fires {sym : List Char} {id : Nat} {p a : Int}
    {cfg : CoinConfig} {s : AlertDict} (ha : cfg.alert_above = some a) (hap : a < p)
    (ht : ¬dget s (aboveKey sym id a) = some true) :
    processAbove sym id p cfg s =
      (dset s (aboveKey sym id a) true, [⟨sym, .above, p⟩]) := by
  simp [processAbove, ha, hap, ht]

theorem processAbove_rearm {sym : List Char} {id : Nat} {p a : Int}
    {cfg : CoinConfig} {s : AlertDict} (ha : cfg.alert_above = some a)
    (hap : ¬a < p) :
    processAbove sym id p cfg s = (dpop s (aboveKey sym id a), []) := by
  simp [processAbove, ha, hap]

theorem processAbove_unset {sym : List Char} {id : Nat} {p : Int}
    {cfg : CoinConfig} {s : AlertDict} (ha : cfg.alert_above = none) :
    processAbove sym id p cfg s = (s, []) := by
  simp [processAbove, ha]

theorem processBelow_triggered {sym : List Char} {id : Nat} {p b : Int}
    {cfg : CoinConfig} {s : AlertDict} (hb : cfg.alert_below = some b) (hpb : p < b)
    (ht : dget s (belowKey sym id b) = some true) :
    processBelow sym id p cfg s = (s, []) := by
  simp [processBelow, hb, hpb, ht]

theorem processBelow_fires {sym : List Char} {id : Nat} {p b : Int}
    {cfg : CoinConfig} {s : AlertDict} (hb : cfg.alert_below = some b) (hpb : p < b)
    (ht : ¬dget s (belowKey sym id b) = some true) :
    processBelow sym id p cfg s =
      (dset s (belowKey sym id b) true, [⟨sym, .below, p⟩]) := by
  simp [processBelow, hb, hpb, ht]

theorem processBelow_rearm {sym : List Char} {id : Nat} {p b : Int}
    {cfg : CoinConfig} {s : AlertDict} (hb : cfg.alert_below = some b)
    (hpb : ¬p < b) :
    processBelow sym id p cfg s = (dpop s (belowKey sym id b), []) := by
  simp [processBelow, hb, hpb]

theorem processBelow_unset {sym : List Char} {id : Nat} {p : Int}
    {cfg : CoinConfig} {s : AlertDict} (hb : cfg.alert_below = none) :
    processBelow sym id p cfg s = (s, []) := by
  simp [processBelow, hb]

theorem processAbove_snd_len {sym : List Char} {id : Nat} {p : Int}
    {cfg : CoinConfig} {s : AlertDict} :
    (processAbove sym id p cfg s).2.length ≤ 1 := by
  cases ha : cfg.alert_above with
  | none => simp [processAbove, ha]
  | some a =>
    simp only [processAbove, ha]
    split
    · split <;> simp
    · simp

theorem processBelow_snd_len {sym : List Char} {id : Nat} {p : Int}
    {cfg : CoinConfig} {s : AlertDict} :
    (processBelow sym id p cfg s).2.length ≤ 1 := by
  cases hb : cfg.alert_below with
  | none => simp [processBelow, hb]
  | some b =>
    simp only [processBelow, hb]
    split
    · split <;> simp
    · simp

theorem dget_mem {d : AlertDict} {k : List Char} {v : Bool}
    (h : dget d k = some v) : (k, v) ∈ d := by
  induction d with
  | nil => simp [dget] at h
  | cons e t ih =>
    obtain ⟨k', v'⟩ := e
    by_cases hk : k' = k
    · subst hk
      simp only [dget, if_true, eq_self_iff_true, Option.some.injEq] at h
      rw [← h]
      exact List.mem_cons_self _ _
    · simp only [dget, hk, if_false] at h
      exact List.mem_cons_of_mem _ (ih h)

theorem allTrue_dget {d : AlertDict} (h : AllTrue d) {k : List Char} {v : Bool}
    (hd : dget d k = some v) : v = true := h (k, v) (dget_mem hd)

/-! ### Claim theorems -/

/-- C1: Hysteresis of the above bound.  For an active asset with
`alert_above = 100`, the price sequence `[90, 110, 95, 120]` fed through
`check_and_trigger_alerts` from a state with no entry for the asset's above
key emits exactly two above events, at 110 and at 120; moreover, after a
firing, while the price stays strictly above the bound the triggered entry
persists and no further above event is emitted, and a sample with price at or
below the bound removes the triggered entry. -/
theorem alert_above_hysteresis :
    ((runPrices ['B', 'T', 'C'] 1 ⟨some 100, none, true⟩ [90, 110, 95, 120] []).2 =
      [⟨['B', 'T', 'C'], .above, 110⟩, ⟨['B', 'T', 'C'], .above, 120⟩])
  ∧ (∀ (s : AlertDict) (sym : List Char) (id : Nat) (p a : Int) (cfg : CoinConfig),
      cfg.alert_active = true → cfg.alert_above = some a →
      dget s (aboveKey sym id a) = some true → a < p →
      (checkAndTriggerAlerts sym id (some p) cfg s).2.filter isAboveEvent = [] ∧
      dget (checkAndTriggerAlerts sym id (some p) cfg s).1 (aboveKey sym id a) = some true)
  ∧ (∀ (s : AlertDict) (sym : List Char) (id : Nat) (p a : Int) (cfg : CoinConfig),
      cfg.alert_active = true → cfg.alert_above = some a → p ≤ a →
      dget (checkAndTriggerAlerts sym id (some p) cfg s).1 (aboveKey sym id a) = none) := by
  refine ⟨by decide, ?_, ?_⟩
  · intro s sym id p a cfg hact ha ht hap
    rw [check_active hact, processAbove_triggered ha hap ht]
    refine ⟨?_, ?_⟩
    · refine List.filter_eq_nil_iff.mpr ?_
      intro e he
      rw [processBelow_snd_mem e he]
      simp [isAboveEvent]
    · rw [show ((processBelow sym id p cfg ((s, ([] : List AlertEvent)).1)).1,
          (s, ([] : List AlertEvent)).2 ++ (processBelow sym id p cfg
            ((s, ([] : List AlertEvent)).1)).2).1 =
          (processBelow sym id p cfg s).1 from rfl]
      rw [processBelow_fst_dget_ne (fun b _ => aboveKey_ne_belowKey sym sym id id a b)]
      exact ht
  · intro s sym id p a cfg hact ha hle
    rw [check_active hact, processAbove_rearm ha (not_lt.mpr hle)]
    rw [show ((processBelow sym id p cfg ((dpop s (aboveKey sym id a),
        ([] : List AlertEvent)).1)).1, (dpop s (aboveKey sym id a),
          ([] : List AlertEvent)).2 ++ (processBelow sym id p cfg
            ((dpop s (aboveKey sym id a), ([] : List AlertEvent)).1)).2).1 =
        (processBelow sym id p cfg (dpop s (aboveKey sym id a))).1 from rfl]
    rw [processBelow_fst_dget_ne (fun b _ => aboveKey_ne_belowKey sym sym id id a b)]
    exact dget_dpop_self s _

/-- Witness for C1: instantiates the hysteresis clauses at a concrete
triggered state for threshold 100, once at price 120 (no re-fire, entry
kept) and once at price 95 (entry removed). -/
theorem alert_above_hysteresis_witness :
    ((checkAndTriggerAlerts ['B', 'T', 'C'] 1 (some 120) ⟨some 100, none, true⟩
        [(aboveKey ['B', 'T', 'C'] 1 100, true)]).2.filter isAboveEvent = [] ∧
      dget (checkAndTriggerAlerts ['B', 'T', 'C'] 1 (some 120) ⟨some 100, none, true⟩
        [(aboveKey ['B', 'T', 'C'] 1 100, true)]).1 (aboveKey ['B', 'T', 'C'] 1 100) =
        some true)
  ∧ dget (checkAndTriggerAlerts ['B', 'T', 'C'] 1 (some 95) ⟨some 100, none, true⟩
      [(aboveKey ['B', 'T', 'C'] 1 100, true)]).1 (aboveKey ['B', 'T', 'C'] 1 100) =
      none :=
  ⟨alert_above_hysteresis.2.1 _ _ _ 120 100 _ rfl rfl (by decide) (by decide),
   alert_above_hysteresis.2.2 _ _ _ 95 100 _ rfl rfl (by decide)⟩

/-- C2: Changing a threshold starts a fresh, unarmed alert.  After an above
event fired at price 110 with `alert_above = 100`, resetting the old
threshold's state via `reset_alert_state("above", 100)` and switching the
configuration to `alert_above = 150` gives: no event at price 120, then
exactly one above event at price 160. -/
theorem threshold_change_fresh_alert :
    ((checkAndTriggerAlerts ['B', 'T', 'C'] 1 (some 110) ⟨some 100, none, true⟩ []).2 =
      [⟨['B', 'T', 'C'], .above, 110⟩])
  ∧ ((checkAndTriggerAlerts ['B', 'T', 'C'] 1 (some 120) ⟨some 150, none, true⟩
      (resetAlertState ['B', 'T', 'C'] 1 (boundTag .above) 100
        (checkAndTriggerAlerts ['B', 'T', 'C'] 1 (some 110)
          ⟨some 100, none, true⟩ []).1)).2 = [])
  ∧ ((checkAndTriggerAlerts ['B', 'T', 'C'] 1 (some 160) ⟨some 150, none, true⟩
      (checkAndTriggerAlerts ['B', 'T', 'C'] 1 (some 120) ⟨some 150, none, true⟩
        (resetAlertState ['B', 'T', 'C'] 1 (boundTag .above) 100
          (checkAndTriggerAlerts ['B', 'T', 'C'] 1 (some 110)
            ⟨some 100, none, true⟩ []).1)).1).2 =
      [⟨['B', 'T', 'C'], .above, 160⟩]) := by
  decide

/-- C3: With `alert_active = false`, a `check_and_trigger_alerts` call — and
hence any price sequence of such calls — emits no event and returns the
`triggered_alerts` dictionary exactly as it was. -/
theorem inactive_no_events :
    (∀ (sym : List Char) (id : Nat) (price : Option Int) (cfg : CoinConfig)
      (s : AlertDict), cfg.alert_active = false →
      checkAndTriggerAlerts sym id price cfg s = (s, []))
  ∧ (∀ (sym : List Char) (id : Nat) (cfg : CoinConfig) (prices : List Int)
      (s : AlertDict), cfg.alert_active = false →
      runPrices sym id cfg prices s = (s, [])) := by
  constructor
  · intro sym id price cfg s h
    exact check_inactive h
  · intro sym id cfg prices
    induction prices with
    | nil => intro s _; rfl
    | cons p ps ih =>
      intro s h
      simp [runPrices, check_inactive h, ih s h]

/-- Witness for C3: an inactive configuration over the price sequence
`[200, 10]` leaves a state holding a triggered entry untouched and emits
nothing. -/
theorem inactive_no_events_witness :
    (CoinConfig.mk (some 100) (some 50) false).alert_active = false ∧
    runPrices ['E', 'T', 'H'] 2 ⟨some 100, some 50, false⟩ [200, 10]
      [(aboveKey ['E', 'T', 'H'] 2 100, true)] =
      ([(aboveKey ['E', 'T', 'H'] 2 100, true)], []) :=
  ⟨rfl, inactive_no_events.2 _ _ _ _ _ rfl⟩

/-- C4: `reset_all_alerts_for_coin(sym, id)` deletes every `triggered_alerts`
entry whose key carries that coin's `f"{sym}_{id}_"` prefix — in particular
every above/below key of that coin, for every threshold — leaving zero
entries for the coin; a re-added asset with the same identity and threshold
then fires again from an armed start. -/
theorem remove_coin_clears_and_rearms :
    (∀ (s : AlertDict) (sym : List Char) (id : Nat) (k : List Char),
      startsWith (keyStart sym id) k = true →
      dget (resetAllAlertsForCoin sym id s) k = none)
  ∧ (∀ (s : AlertDict) (sym : List Char) (id : Nat) (kind : BoundKind) (v : Int),
      dget (resetAllAlertsForCoin sym id s) (boundKey sym id kind v) = none)
  ∧ (∀ (s : AlertDict) (sym : List Char) (id : Nat) (cfg : CoinConfig) (p a : Int),
      cfg.alert_active = true → cfg.alert_above = some a → a < p →
      (⟨sym, .above, p⟩ : AlertEvent) ∈
        (checkAndTriggerAlerts sym id (some p) cfg (resetAllAlertsForCoin sym id s)).2) := by
  refine ⟨fun s sym id k h => dget_resetAll s h,
    fun s sym id kind v => dget_resetAll s (startsWith_keyStart sym id (boundTag kind) v),
    ?_⟩
  intro s sym id cfg p a hact ha hap
  have hup : dget (resetAllAlertsForCoin sym id s) (aboveKey sym id a) = none :=
    dget_resetAll s (startsWith_keyStart sym id (boundTag .above) a)
  rw [check_active hact, processAbove_fires ha hap (by simp [hup])]
  simp

/-- Witness for C4: after triggering both bounds of a coin, removing the coin
leaves no entry for it, and a fresh call fires again. -/
theorem remove_coin_clears_and_rearms_witness :
    dget (resetAllAlertsForCoin ['B', 'T', 'C'] 1
        [(aboveKey ['B', 'T', 'C'] 1 100, true), (belowKey ['B', 'T', 'C'] 1 50, true)])
      (aboveKey ['B', 'T', 'C'] 1 100) = none
  ∧ (⟨['B', 'T', 'C'], .above, 120⟩ : AlertEvent) ∈
      (checkAndTriggerAlerts ['B', 'T', 'C'] 1 (some 120) ⟨some 100, none, true⟩
        (resetAllAlertsForCoin ['B', 'T', 'C'] 1
          [(aboveKey ['B', 'T', 'C'] 1 100, true),
            (belowKey ['B', 'T', 'C'] 1 50, true)])).2 :=
  ⟨remove_coin_clears_and_rearms.1 _ _ _ _ (by decide),
   remove_coin_clears_and_rearms.2.2 _ _ _ _ 120 100 rfl rfl (by decide)⟩

/-- C7: both bounds are evaluated independently in one call.  For an active
asset misconfigured with `alert_below > alert_above` and a price strictly
between them, a single call from a state where both keys are armed emits two
events — the above one then the below one; and in general a call emits at
most two events. -/
theorem both_bounds_independent :
    (∀ (sym : List Char) (id : Nat) (cfg : CoinConfig) (s : AlertDict) (p a b : Int),
      cfg.alert_active = true → cfg.alert_above = some a → cfg.alert_below = some b →
      a < p → p < b →
      dget s (aboveKey sym id a) = none → dget s (belowKey sym id b) = none →
      (checkAndTriggerAlerts sym id (some p) cfg s).2 =
        [⟨sym, .above, p⟩, ⟨sym, .below, p⟩])
  ∧ (∀ (sym : List Char) (id : Nat) (price : Option Int) (cfg : CoinConfig)
      (s : AlertDict), (checkAndTriggerAlerts sym id price cfg s).2.length ≤ 2) := by
  constructor
  · intro sym id cfg s p a b hact ha hb hap hpb hna hnb
    rw [check_active hact, processAbove_fires ha hap (by simp [hna])]
    have hnb' : ¬dget (dset s (aboveKey sym id a) true) (belowKey sym id b) = some true := by
      rw [dget_dset_ne _ _ _ _ (aboveKey_ne_belowKey sym sym id id a b), hnb]
      simp
    rw [processBelow_fires hb hpb hnb']
    rfl
  · intro sym id price cfg s
    cases hact : cfg.alert_active with
    | false => rw [check_inactive hact]; simp
    | true =>
      cases price with
      | none => rw [check_none_price]; simp
      | some p =>
        rw [check_active hact]
        show ((processAbove sym id p cfg s).2 ++
          (processBelow sym id p cfg (processAbove sym id p cfg s).1).2).length ≤ 2
        rw [List.length_append]
        have h1 : (processAbove sym id p cfg s).2.length ≤ 1 := processAbove_snd_len
        have h2 : (processBelow sym id p cfg (processAbove sym id p cfg s).1).2.length ≤ 1 :=
          processBelow_snd_len
        omega

/-- Witness for C7: `alert_above = 100`, `alert_below = 200` (misconfigured),
price 150 from the empty state: the call emits the above event then the below
event. -/
theorem both_bounds_independent_witness :
    (checkAndTriggerAlerts ['B', 'T', 'C'] 1 (some 150) ⟨some 100, some 200, true⟩ []).2 =
      [⟨['B', 'T', 'C'], .above, 150⟩, ⟨['B', 'T', 'C'], .below, 150⟩] ∧
    (checkAndTriggerAlerts ['B', 'T', 'C'] 1 (some 150) ⟨some 100, some 200, true⟩
      []).2.length ≤ 2 :=
  ⟨both_bounds_independent.1 _ _ _ [] 150 100 200 rfl rfl rfl (by decide) (by decide)
      rfl rfl,
   both_bounds_independent.2 _ _ _ _ _⟩

/-- Counterexample for C8.  The claim states that an evaluate call on an
active asset whose `alert_above` is unset removes any existing triggered
above-entry.  In the source (line 108) the `pop` is guarded by
`if alert_above_price is not None`, so with the bound unset nothing is
removed: from the state holding the triggered entry for threshold 100, a call
at price 50 with `alert_above = None` returns the state unchanged, the
triggered entry still present. -/
theorem unset_bound_no_removal_cex :
    dget [(aboveKey ['B', 'T', 'C'] 1 100, true)] (aboveKey ['B', 'T', 'C'] 1 100) =
      some true
  ∧ (checkAndTriggerAlerts ['B', 'T', 'C'] 1 (some 50) ⟨none, none, true⟩
      [(aboveKey ['B', 'T', 'C'] 1 100, true)]).1 =
      [(aboveKey ['B', 'T', 'C'] 1 100, true)]
  ∧ dget (checkAndTriggerAlerts ['B', 'T', 'C'] 1 (some 50) ⟨none, none, true⟩
      [(aboveKey ['B', 'T', 'C'] 1 100, true)]).1 (aboveKey ['B', 'T', 'C'] 1 100) =
      some true := by
  decide

/-- C8 as amended: when a bound is unset, the evaluate call removes nothing
for that bound — every above-entry (resp. below-entry) of the asset is left
unchanged and no event of that kind is emitted; the removal that re-arms an
alert happens only when the bound is set and the price is back at or inside
it, and it removes exactly the entry keyed by the current threshold. -/
theorem unset_bound_leaves_state :
    (∀ (sym : List Char) (id : Nat) (p : Int) (cfg : CoinConfig) (s : AlertDict)
      (v : Int), cfg.alert_above = none →
      dget (checkAndTriggerAlerts sym id (some p) cfg s).1 (aboveKey sym id v) =
        dget s (aboveKey sym id v)
      ∧ (checkAndTriggerAlerts sym id (some p) cfg s).2.filter isAboveEvent = [])
  ∧ (∀ (sym : List Char) (id : Nat) (p : Int) (cfg : CoinConfig) (s : AlertDict)
      (v : Int), cfg.alert_below = none →
      dget (checkAndTriggerAlerts sym id (some p) cfg s).1 (belowKey sym id v) =
        dget s (belowKey sym id v)
      ∧ (checkAndTriggerAlerts sym id (some p) cfg s).2.filter isBelowEvent = [])
  ∧ (∀ (sym : List Char) (id : Nat) (p : Int) (cfg : CoinConfig) (s : AlertDict)
      (a : Int), cfg.alert_active = true → cfg.alert_above = some a → p ≤ a →
      dget (checkAndTriggerAlerts sym id (some p) cfg s).1 (aboveKey sym id a) = none)
  ∧ (∀ (sym : List Char) (id : Nat) (p : Int) (cfg : CoinConfig) (s : AlertDict)
      (b : Int), cfg.alert_active = true → cfg.alert_below = some b → b ≤ p →
      dget (checkAndTriggerAlerts sym id (some p) cfg s).1 (belowKey sym id b) = none) := by
  refine ⟨?_, ?_, ?_, ?_⟩
  · intro sym id p cfg s v ha
    cases hact : cfg.alert_active with
    | false => rw [check_inactive hact]; exact ⟨rfl, rfl⟩
    | true =>
      rw [check_active hact, processAbove_unset ha]
      constructor
      · exact processBelow_fst_dget_ne
          (fun b _ => (aboveKey_ne_belowKey sym sym id id v b))
      · refine List.filter_eq_nil_iff.mpr ?_
        intro e he
        rw [processBelow_snd_mem e he]
        simp [isAboveEvent]
  · intro sym id p cfg s v hb
    cases hact : cfg.alert_active with
    | false => rw [check_inactive hact]; exact ⟨rfl, rfl⟩
    | true =>
      rw [check_active hact, processBelow_unset hb]
      constructor
      · exact processAbove_fst_dget_ne
          (fun a _ => (aboveKey_ne_belowKey sym sym id id a v).symm)
      · refine List.filter_eq_nil_iff.mpr ?_
        intro e he
        rcases List.mem_append.mp he with he | he
        · rw [processAbove_snd_mem e he]
          simp [isBelowEvent]
        · exact absurd he (List.not_mem_nil e)
  · intro sym id p cfg s a hact ha hle
    rw [check_active hact, processAbove_rearm ha (not_lt.mpr hle)]
    have h : dget (processBelow sym id p cfg (dpop s (aboveKey sym id a))).1
        (aboveKey sym id a) = dget (dpop s (aboveKey sym id a)) (aboveKey sym id a) :=
      processBelow_fst_dget_ne (fun b _ => aboveKey_ne_belowKey sym sym id id a b)
    rw [show ((processBelow sym id p cfg ((dpop s (aboveKey sym id a),
        ([] : List AlertEvent)).1)).1, (dpop s (aboveKey sym id a),
          ([] : List AlertEvent)).2 ++ (processBelow sym id p cfg
            ((dpop s (aboveKey sym id a), ([] : List AlertEvent)).1)).2).1 =
        (processBelow sym id p cfg (dpop s (aboveKey sym id a))).1 from rfl, h]
    exact dget_dpop_self s _
  · intro sym id p cfg s b hact hb hle
    rw [check_active hact, processBelow_rearm hb (not_lt.mpr hle)]
    exact dget_dpop_self _ _

/-- Witness for C8's amended statement: with `alert_above = None` a call at
price 50 leaves the triggered entry for threshold 100 in place and emits no
above event; with `alert_above = 100` a call at price 95 removes it. -/
theorem unset_bound_leaves_state_witness :
    (dget (checkAndTriggerAlerts ['B', 'T', 'C'] 1 (some 50) ⟨none, none, true⟩
        [(aboveKey ['B', 'T', 'C'] 1 100, true)]).1 (aboveKey ['B', 'T', 'C'] 1 100) =
      dget [(aboveKey ['B', 'T', 'C'] 1 100, true)] (aboveKey ['B', 'T', 'C'] 1 100)
    ∧ (checkAndTriggerAlerts ['B', 'T', 'C'] 1 (some 50) ⟨none, none, true⟩
        [(aboveKey ['B', 'T', 'C'] 1 100, true)]).2.filter isAboveEvent = [])
  ∧ dget (checkAndTriggerAlerts ['B', 'T', 'C'] 1 (some 95) ⟨some 100, none, true⟩
      [(aboveKey ['B', 'T', 'C'] 1 100, true)]).1 (aboveKey ['B', 'T', 'C'] 1 100) =
      none :=
  ⟨unset_bound_leaves_state.1 _ _ 50 _ _ 100 rfl,
   unset_bound_leaves_state.2.2.1 _ _ 95 _ _ 100 rfl rfl (by decide)⟩

/-- C9: per-asset frame property.  A `check_and_trigger_alerts` call changes
only dictionary entries whose key starts with the call's own
`f"{sym}_{id}_"` prefix; every alert key of a different asset (different
symbol or different id) reads the same before and after the call. -/
theorem evaluate_frame_property :
    (∀ (sym : List Char) (id : Nat) (price : Option Int) (cfg : CoinConfig)
      (s : AlertDict) (k : List Char),
      dget (checkAndTriggerAlerts sym id price cfg s).1 k ≠ dget s k →
      startsWith (keyStart sym id) k = true)
  ∧ (∀ (sym : List Char) (id : Nat) (price : Option Int) (cfg : CoinConfig)
      (s : AlertDict) (sym' : List Char) (id' : Nat) (kind' : BoundKind) (v' : Int),
      sym' ≠ sym ∨ id' ≠ id →
      dget (checkAndTriggerAlerts sym id price cfg s).1 (boundKey sym' id' kind' v') =
        dget s (boundKey sym' id' kind' v')) := by
  constructor
  · intro sym id price cfg s k hne
    by_contra hsw
    apply hne
    apply check_fst_dget_ne
    · intro a _ hk
      exact hsw (by rw [hk]; exact startsWith_keyStart sym id (boundTag .above) a)
    · intro b _ hk
      exact hsw (by rw [hk]; exact startsWith_keyStart sym id (boundTag .below) b)
  · intro sym id price cfg s sym' id' kind' v' hdiff
    apply check_fst_dget_ne
    · intro a _ hk
      obtain ⟨hs, hi, _, _⟩ := boundKey_inj hk
      rcases hdiff with h | h
      · exact h hs
      · exact h hi
    · intro b _ hk
      obtain ⟨hs, hi, _, _⟩ := boundKey_inj hk
      rcases hdiff with h | h
      · exact h hs
      · exact h hi

/-- Witness for C9: a call for `("BTC", 1)` that does modify its own above
key has that key prefixed by `"BTC_1_"`, and leaves the above key of
`("ETH", 2)` (same threshold) unread and unchanged. -/
theorem evaluate_frame_property_witness :
    startsWith (keyStart ['B', 'T', 'C'] 1) (aboveKey ['B', 'T', 'C'] 1 100) = true
  ∧ dget (checkAndTriggerAlerts ['B', 'T', 'C'] 1 (some 110) ⟨some 100, none, true⟩
      [(aboveKey ['E', 'T', 'H'] 2 100, true)]).1 (boundKey ['E', 'T', 'H'] 2 .above 100) =
      dget [(aboveKey ['E', 'T', 'H'] 2 100, true)] (boundKey ['E', 'T', 'H'] 2 .above 100) :=
  ⟨evaluate_frame_property.1 ['B', 'T', 'C'] 1 (some 110) ⟨some 100, none, true⟩ []
      (aboveKey ['B', 'T', 'C'] 1 100) (by decide),
   evaluate_frame_property.2 _ _ (some 110) _ _ ['E', 'T', 'H'] 2 .above 100
      (Or.inl (by decide))⟩

theorem allTrue_processAbove {sym : List Char} {id : Nat} {p : Int}
    {cfg : CoinConfig} {s : AlertDict} (h : AllTrue s) :
    AllTrue (processAbove sym id p cfg s).1 := by
  cases ha : cfg.alert_above with
  | none => rw [processAbove_unset ha]; exact h
  | some a =>
    by_cases hap : a < p
    · by_cases ht : dget s (aboveKey sym id a) = some true
      · rw [processAbove_triggered ha hap ht]; exact h
      · rw [processAbove_fires ha hap ht]; exact allTrue_dset_true h _
    · rw [processAbove_rearm ha hap]; exact allTrue_dpop h _

theorem allTrue_processBelow {sym : List Char} {id : Nat} {p : Int}
    {cfg : CoinConfig} {s : AlertDict} (h : AllTrue s) :
    AllTrue (processBelow sym id p cfg s).1 := by
  cases hb : cfg.alert_below with
  | none => rw [processBelow_unset hb]; exact h
  | some b =>
    by_cases hpb : p < b
    · by_cases ht : dget s (belowKey sym id b) = some true
      · rw [processBelow_triggered hb hpb ht]; exact h
      · rw [processBelow_fires hb hpb ht]; exact allTrue_dset_true h _
    · rw [processBelow_rearm hb hpb]; exact allTrue_dpop h _

theorem allTrue_check {sym : List Char} {id : Nat} {price : Option Int}
    {cfg : CoinConfig} {s : AlertDict} (h : AllTrue s) :
    AllTrue (checkAndTriggerAlerts sym id price cfg s).1 := by
  cases hact : cfg.alert_active with
  | false => rw [check_inactive hact]; exact h
  | true =>
    cases price with
    | none => rw [check_none_price]; exact h
    | some p =>
      rw [check_active hact]
      exact allTrue_processBelow (allTrue_processAbove h)

/-- C10: in every state reachable from the empty dictionary by the three
`AlertManager` operations, every stored value is `True`; and, from any
all-`True` state, a `check_and_trigger_alerts` call emits an above
(respectively below) event exactly when the corresponding bound's key goes
from absent to present during that call, while an unset bound contributes no
event of its kind. -/
theorem triggered_invariant_event_iff :
    (∀ s, Reach s → AllTrue s)
  ∧ (∀ (sym : List Char) (id : Nat) (p : Int) (cfg : CoinConfig) (s : AlertDict)
      (a : Int), AllTrue s → cfg.alert_above = some a →
      ((∃ e ∈ (checkAndTriggerAlerts sym id (some p) cfg s).2, isAboveEvent e = true) ↔
        dget s (aboveKey sym id a) = none ∧
        dget (checkAndTriggerAlerts sym id (some p) cfg s).1 (aboveKey sym id a) =
          some true))
  ∧ (∀ (sym : List Char) (id : Nat) (p : Int) (cfg : CoinConfig) (s : AlertDict)
      (b : Int), AllTrue s → cfg.alert_below = some b →
      ((∃ e ∈ (checkAndTriggerAlerts sym id (some p) cfg s).2, isBelowEvent e = true) ↔
        dget s (belowKey sym id b) = none ∧
        dget (checkAndTriggerAlerts sym id (some p) cfg s).1 (belowKey sym id b) =
          some true))
  ∧ (∀ (sym : List Char) (id : Nat) (p : Int) (cfg : CoinConfig) (s : AlertDict),
      cfg.alert_above = none →
      (checkAndTriggerAlerts sym id (some p) cfg s).2.filter isAboveEvent = [])
  ∧ (∀ (sym : List Char) (id : Nat) (p : Int) (cfg : CoinConfig) (s : AlertDict),
      cfg.alert_below = none →
      (checkAndTriggerAlerts sym id (some p) cfg s).2.filter isBelowEvent = []) := by
  refine ⟨?_, ?_, ?_, ?_, ?_⟩
  · intro s hr
    induction hr with
    | init => intro e he; exact absurd he (List.not_mem_nil e)
    | check sym id price cfg hr ih => exact allTrue_check ih
    | reset sym id limitType limitValue hr ih => exact allTrue_dpop ih _
    | resetAll sym id hr ih => exact fun e he => ih e (List.mem_of_mem_filter he)
  · intro sym id p cfg s a hall ha
    cases hact : cfg.alert_active with
    | false =>
      rw [check_inactive hact]
      constructor
      · rintro ⟨e, he, -⟩
        exact absurd he (List.not_mem_nil e)
      · rintro ⟨h1, h2⟩
        have h2' : dget s (aboveKey sym id a) = some true := h2
        rw [h1] at h2'
        exact Option.noConfusion h2'
    | true =>
      rw [check_active hact]
      by_cases hap : a < p
      · cases hd : dget s (aboveKey sym id a) with
        | some v =>
          have hv := allTrue_dget hall hd
          subst hv
          rw [processAbove_triggered ha hap hd]
          constructor
          · rintro ⟨e, he, hk⟩
            rw [processBelow_snd_mem e he] at hk
            simp [isAboveEvent] at hk
          · rintro ⟨h1, -⟩
            exact Option.noConfusion h1
        | none =>
          rw [processAbove_fires ha hap (by simp [hd])]
          constructor
          · intro _
            refine ⟨rfl, ?_⟩
            have h := @processBelow_fst_dget_ne sym id p cfg
              (dset s (aboveKey sym id a) true) (aboveKey sym id a)
              (fun b _ => aboveKey_ne_belowKey sym sym id id a b)
            exact h.trans (dget_dset_self s _ true)
          · intro _
            exact ⟨⟨sym, .above, p⟩, List.mem_cons_self _ _, rfl⟩
      · rw [processAbove_rearm ha hap]
        constructor
        · rintro ⟨e, he, hk⟩
          rw [processBelow_snd_mem e he] at hk
          simp [isAboveEvent] at hk
        · rintro ⟨-, h2⟩
          have h2' : dget (processBelow sym id p cfg
              (dpop s (aboveKey sym id a))).1 (aboveKey sym id a) = some true := h2
          rw [processBelow_fst_dget_ne
            (fun b _ => aboveKey_ne_belowKey sym sym id id a b), dget_dpop_self] at h2'
          exact Option.noConfusion h2'
  · intro sym id p cfg s b hall hb
    cases hact : cfg.alert_active with
    | false =>
      rw [check_inactive hact]
      constructor
      · rintro ⟨e, he, -⟩
        exact absurd he (List.not_mem_nil e)
      · rintro ⟨h1, h2⟩
        have h2' : dget s (belowKey sym id b) = some true := h2
        rw [h1] at h2'
        exact Option.noConfusion h2'
    | true =>
      rw [check_active hact]
      have hbk : dget (processAbove sym id p cfg s).1 (belowKey sym id b) =
          dget s (belowKey sym id b) :=
        processAbove_fst_dget_ne
          (fun a _ => (aboveKey_ne_belowKey sym sym id id a b).symm)
      by_cases hpb : p < b
      · cases hd : dget s (belowKey sym id b) with
        | some v =>
          have hv := allTrue_dget hall hd
          subst hv
          rw [hd] at hbk
          rw [processBelow_triggered hb hpb hbk]
          constructor
          · rintro ⟨e, he, hk⟩
            rcases List.mem_append.mp he with he | he
            · rw [processAbove_snd_mem e he] at hk
              simp [isBelowEvent] at hk
            · exact absurd he (List.not_mem_nil e)
          · rintro ⟨h1, -⟩
            exact Option.noConfusion h1
        | none =>
          rw [hd] at hbk
          rw [processBelow_fires hb hpb (by simp [hbk])]
          constructor
          · intro _
            exact ⟨rfl, dget_dset_self _ _ _⟩
          · intro _
            exact ⟨⟨sym, .below, p⟩,
              List.mem_append_right _ (List.mem_cons_self _ _), rfl⟩
      · rw [processBelow_rearm hb hpb]
        constructor
        · rintro ⟨e, he, hk⟩
          rcases List.mem_append.mp he with he | he
          · rw [processAbove_snd_mem e he] at hk
            simp [isBelowEvent] at hk
          · exact absurd he (List.not_mem_nil e)
        · rintro ⟨-, h2⟩
          have h2' : dget (dpop (processAbove sym id p cfg s).1 (belowKey sym id b))
              (belowKey sym id b) = some true := h2
          rw [dget_dpop_self] at h2'
          exact Option.noConfusion h2'
  · intro sym id p cfg s ha
    cases hact : cfg.alert_active with
    | false => rw [check_inactive hact]; rfl
    | true =>
      rw [check_active hact, processAbove_unset ha]
      refine List.filter_eq_nil_iff.mpr ?_
      intro e he
      rw [processBelow_snd_mem e he]
      simp [isAboveEvent]
  · intro sym id p cfg s hb
    cases hact : cfg.alert_active with
    | false => rw [check_inactive hact]; rfl
    | true =>
      rw [check_active hact, processBelow_unset hb]
      refine List.filter_eq_nil_iff.mpr ?_
      intro e he
      rcases List.mem_append.mp he with he | he
      · rw [processAbove_snd_mem e he]
        simp [isBelowEvent]
      · exact absurd he (List.not_mem_nil e)

/-- Witness for C10: the empty dictionary is reachable and all-`True`; at a
concrete armed state the event-iff instance holds with both sides true. -/
theorem triggered_invariant_event_iff_witness :
    AllTrue []
  ∧ ((∃ e ∈ (checkAndTriggerAlerts ['B', 'T', 'C'] 1 (some 120) ⟨some 100, none, true⟩
        []).2, isAboveEvent e = true) ↔
      dget [] (aboveKey ['B', 'T', 'C'] 1 100) = none ∧
      dget (checkAndTriggerAlerts ['B', 'T', 'C'] 1 (some 120) ⟨some 100, none, true⟩
        []).1 (aboveKey ['B', 'T', 'C'] 1 100) = some true) :=
  ⟨triggered_invariant_event_iff.1 [] Reach.init,
   triggered_invariant_event_iff.2.1 ['B', 'T', 'C'] 1 120 ⟨some 100, none, true⟩ []
      100 (triggered_invariant_event_iff.1 [] Reach.init) rfl⟩

/-! ### Scheduler lemmas -/

theorem startLoop_noop (apiOk : Bool) (s : SchedState)
    (h : threadAliveB s = true) : startLoop apiOk s = s := by
  unfold startLoop
  by_cases hok : apiOk = false
  · rw [if_pos hok]
  · rw [if_neg hok, if_pos h]

theorem invariant_startLoop (apiOk : Bool) (s : SchedState)
    (hlen : s.alive.length ≤ 1) (htrack : ∀ t ∈ s.alive, s.fetchThread = some t) :
    (startLoop apiOk s).alive.length ≤ 1 ∧
      ∀ t ∈ (startLoop apiOk s).alive, (startLoop apiOk s).fetchThread = some t := by
  unfold startLoop
  split
  · exact ⟨hlen, htrack⟩
  · split
    · exact ⟨hlen, htrack⟩
    · rename_i hal
      cases halive : s.alive with
      | nil =>
        refine ⟨by simp [halive], ?_⟩
        intro t ht
        simp only [halive, List.mem_singleton] at ht
        simp [ht]
      | cons x xs =>
        exfalso
        apply hal
        have hx := htrack x (by rw [halive]; exact List.mem_cons_self _ _)
        unfold threadAliveB
        rw [hx]
        simp [halive]

theorem invariant_stopLoop (s : SchedState)
    (hlen : s.alive.length ≤ 1) (htrack : ∀ t ∈ s.alive, s.fetchThread = some t) :
    (stopLoop true s).alive.length ≤ 1 ∧
      ∀ t ∈ (stopLoop true s).alive, (stopLoop true s).fetchThread = some t := by
  cases hft : s.fetchThread with
  | none =>
    simp only [stopLoop, hft]
    refine ⟨hlen, fun t ht => ?_⟩
    exact hft ▸ htrack t ht
  | some t =>
    by_cases hmem : s.alive.contains t = true
    · simp only [stopLoop, hft, hmem, if_true]
      have htm : t ∈ s.alive := by simpa using hmem
      have herase : s.alive.erase t = [] := by
        cases halive : s.alive with
        | nil => rw [halive] at htm; exact absurd htm (List.not_mem_nil t)
        | cons x xs =>
          have hxs : xs = [] := by
            rw [halive, List.length_cons] at hlen
            exact List.length_eq_zero.mp (by omega)
          subst hxs
          have hx : x = t := by
            rw [halive] at htm
            simp at htm
            exact htm.symm
          rw [hx]
          simp
      refine ⟨?_, ?_⟩
      · simp [herase]
      · intro t' ht'
        simp [herase] at ht'
    · simp only [stopLoop, hft, hmem, if_false]
      refine ⟨hlen, fun t' ht' => ?_⟩
      exfalso
      have hthis := htrack t' ht'
      rw [hft] at hthis
      obtain rfl : t = t' := by injection hthis
      exact hmem (by simpa using ht')

theorem invariant_observeStop (tid : Nat) (s : SchedState)
    (hlen : s.alive.length ≤ 1) (htrack : ∀ t ∈ s.alive, s.fetchThread = some t) :
    (observeStop tid s).alive.length ≤ 1 ∧
      ∀ t ∈ (observeStop tid s).alive, (observeStop tid s).fetchThread = some t := by
  unfold observeStop
  split
  · refine ⟨?_, ?_⟩
    · exact le_trans (List.erase_sublist _ _).length_le hlen
    · intro t ht
      exact htrack t (List.mem_of_mem_erase ht)
  · exact ⟨hlen, htrack⟩

theorem goodReach_invariant : ∀ s, GoodReach s →
    s.alive.length ≤ 1 ∧ ∀ t ∈ s.alive, s.fetchThread = some t := by
  intro s hr
  induction hr with
  | init => exact ⟨by simp [initSched], by simp [initSched]⟩
  | start apiOk hr ih => exact invariant_startLoop apiOk _ ih.1 ih.2
  | stop hr ih => exact invariant_stopLoop _ ih.1 ih.2
  | observe tid hr ih => exact invariant_observeStop tid _ ih.1 ih.2

/-- Counterexample for C5.  The claim states that start() is rejected or
ignored while a prior loop's stop is still pending, so that no two loops ever
run concurrently.  In the source, `stop_data_fetching_loop` sets
`data_fetch_thread = None` even when `join(timeout=5)` timed out and the loop
thread is still alive; a subsequent `start_data_fetching_loop` then sees no
tracked thread, clears the shared stop event (un-signalling the abandoned
loop) and spawns a second loop: after start; stop-with-timed-out-join;
start, two loop threads are alive and the stop event is clear. -/
theorem start_after_abandoned_stop_two_loops :
    (stopLoop false (startLoop true initSched)).alive = [0]
  ∧ (stopLoop false (startLoop true initSched)).fetchThread = none
  ∧ aliveCount (startLoop true (stopLoop false (startLoop true initSched))) = 2
  ∧ (startLoop true (stopLoop false (startLoop true initSched))).stopEvent = false := by
  decide

/-- C5 as amended: calling start() while the tracked loop thread is alive is
a no-op (`startLoop` is idempotent, and two consecutive starts from the idle
state yield exactly one running loop); and along every history in which each
stop()'s join completes within its timeout, at most one loop thread is ever
alive.  (When a join times out, the thread is abandoned with the handle
cleared, and a later start() can make a second loop run concurrently.) -/
theorem single_loop_guarantee :
    (∀ (apiOk : Bool) (s : SchedState),
      startLoop apiOk (startLoop apiOk s) = startLoop apiOk s)
  ∧ aliveCount (startLoop true (startLoop true initSched)) = 1
  ∧ (∀ s, GoodReach s → aliveCount s ≤ 1) := by
  refine ⟨?_, by decide, ?_⟩
  · intro apiOk s
    by_cases hok : apiOk = false
    · simp [startLoop, hok]
    · by_cases hal : threadAliveB s = true
      · rw [startLoop_noop apiOk s hal]
        exact startLoop_noop apiOk s hal
      · apply startLoop_noop
        unfold startLoop
        rw [if_neg hok, if_neg hal]
        simp [threadAliveB]
  · intro s hr
    exact (goodReach_invariant s hr).1

/-- Witness for C5's amended statement: a concrete good history
(start then a clean stop) stays within the one-loop bound. -/
theorem single_loop_guarantee_witness :
    GoodReach (stopLoop true (startLoop true initSched))
  ∧ aliveCount (stopLoop true (startLoop true initSched)) ≤ 1 :=
  ⟨GoodReach.stop (GoodReach.start true GoodReach.init),
   single_loop_guarantee.2.2 _ (GoodReach.stop (GoodReach.start true GoodReach.init))⟩

/-- C6: fetch-outcome classification in `_fetch_data_loop`.  A transient API
error is logged as a continued tick and the next iteration still runs; an
authentication error (CMC message matching the fatal substrings) stops the
loop at that tick, signalling re-authentication through
`_prompt_for_api_key_again`, and no later response is ever processed; a data
response is processed and the loop continues. -/
theorem fetch_outcome_classification :
    (∀ (msg : List Char) (rest : List ApiResp) (labelExists : Bool),
      isAuthMsg msg = false →
      runLoop labelExists (ApiResp.apiError msg :: rest) =
        TickResult.continuedError :: runLoop labelExists rest)
  ∧ (∀ (msg : List Char) (rest : List ApiResp),
      isAuthMsg msg = true →
      runLoop true (ApiResp.apiError msg :: rest) = [TickResult.stoppedAuth true])
  ∧ (∀ (rest : List ApiResp) (labelExists : Bool),
      runLoop labelExists (ApiResp.withData :: rest) =
        TickResult.processed :: runLoop labelExists rest) := by
  refine ⟨?_, ?_, ?_⟩
  · intro msg rest labelExists h
    simp [runLoop, tickOutcome, h, stopsLoop]
  · intro msg rest h
    simp [runLoop, tickOutcome, h, stopsLoop]
  · intro rest labelExists
    simp [runLoop, tickOutcome, stopsLoop]

/-- Witness for C6: a rate-limit message is transient (the following data
tick still runs); an invalid-API-key message stops the loop and the pending
data tick is never processed. -/
theorem fetch_outcome_classification_witness :
    isAuthMsg ['r', 'a', 't', 'e', ' ', 'l', 'i', 'm', 'i', 't'] = false
  ∧ runLoop true [ApiResp.apiError ['r', 'a', 't', 'e', ' ', 'l', 'i', 'm', 'i', 't'],
      ApiResp.withData] = [TickResult.continuedError, TickResult.processed]
  ∧ isAuthMsg ("Invalid API key supplied").data = true
  ∧ runLoop true [ApiResp.apiError ("Invalid API key supplied").data,
      ApiResp.withData] = [TickResult.stoppedAuth true] :=
  ⟨by decide,
   by
    rw [fetch_outcome_classification.1 _ _ _ (by decide),
      fetch_outcome_classification.2.2 [] true]
    rfl,
   by decide,
   fetch_outcome_classification.2.1 _ _ (by decide)⟩

end CryptoChecker
